import Mathlib

/-
  Verification development for the crawl-mcp repository.

  Shallow embedding of the traversal engine of src/async_crawler.py
  (class AsyncParallelCrawler) and the URL utilities of src/utils.py
  (class URLValidator, class OutputPathGenerator), together with
  theorems settling the frozen claims about the spec.

  Modelling conventions:
  - Python str is modelled as Lean String, and character-level work is
    done on List Char (String.data).
  - Python set(str) is modelled as a duplicate-free List String built by
    an insert-if-absent operation; set(CrawlTask), whose elements hash
    and compare by URL only, is modelled as a List CrawlTask built by an
    insert-if-url-absent operation.
  - The external Fetch Port (crawl4ai AsyncWebCrawler.arun) is an oracle
    function String -> FetchOutcome carried in the Crawler structure.
    Its three outcomes mirror the three paths of _crawl_single_page:
    a successful fetch (title, content, internal links), a failed fetch
    (result.success false with error_message), and a raised exception
    (caught at lines 280-294 and converted to a failed CrawlResult; the
    isinstance-Exception branch of the gather loop at lines 388-398
    builds the identical CrawlResult, so both paths share one model).
  - The Storage Port file system is the list of file names present in
    the output directory; OutputPathGenerator.generate_filename is an
    oracle function fname : String -> String (its internal sanitizing
    is not needed by any claim).  A successful fetch writes its file
    before the gather barrier, hence before result processing.
  - Python floats (time stamps, averages) are modelled as exact
    rationals.
-/

namespace Crawl

/-- Python str.startswith for character lists. -/
def startsWL : List Char → List Char → Bool
  | [], _ => true
  | _ :: _, [] => false
  | a :: as, b :: bs => a == b && startsWL as bs

/-- The part of l strictly before the first occurrence of c
    (all of l when c does not occur); models the left half of
    Python str.split(c, 1). -/
def beforeChar (c : Char) (l : List Char) : List Char :=
  l.takeWhile (fun a => a != c)

/-- The part of l strictly after the first occurrence of c
    ([] when c does not occur); models the right half of
    Python str.split(c, 1), with a missing separator giving
    the empty component as urlsplit does. -/
def dropAfter (c : Char) (l : List Char) : List Char :=
  (l.dropWhile (fun a => a != c)).drop 1

/-- Python substring containment (the in operator on str). -/
def isSubstr : List Char → List Char → Bool
  | p, [] => startsWL p []
  | p, s@(_ :: t) => startsWL p s || isSubstr p t

/-- Characters legal inside a URL scheme (urllib scheme_chars). -/
def schemeChar (c : Char) : Bool :=
  c.isAlpha || c.isDigit || c == '+' || c == '-' || c == '.'

/-- Characters that continue the netloc component: everything up to the
    first '/', '?' or '#' (urllib _splitnetloc). -/
def nlc (c : Char) : Bool :=
  c != '/' && c != '?' && c != '#'

/-- Characters kept by urlsplit: it deletes ASCII tab, CR and LF from
    the URL before parsing (_UNSAFE_URL_BYTES_TO_REMOVE). -/
def keptChar (c : Char) : Bool :=
  c != '\t' && c != '\r' && c != '\n'

/-- C0 control characters and space, stripped from the front of the URL
    by urlsplit (_WHATWG_C0_CONTROL_OR_SPACE, code points 0 to 32). -/
def c0OrSpace (c : Char) : Bool :=
  c.toNat ≤ 32

/-- Schemes that use a network location (urllib uses_netloc), consulted
    by urlunsplit when deciding whether to emit the // separator. -/
def usesNetloc : List (List Char) :=
  ["", "ftp", "http", "gopher", "nntp", "telnet", "imap", "wais",
   "file", "mms", "https", "shttp", "snews", "prospero", "rtsp",
   "rtsps", "rtspu", "rsync", "svn", "svn+ssh", "sftp", "nfs",
   "git", "git+ssh", "ws", "wss"].map String.data

/-- Result of urllib.parse.urlsplit.  urlparse additionally splits
    params off the path, but geturl joins them back verbatim, so the
    params layer is the identity for every use in this repository and
    the split level suffices. -/
structure SplitResult where
  scheme : List Char
  netloc : List Char
  path : List Char
  query : List Char
  fragment : List Char
deriving DecidableEq

/-- Scheme detection of urllib.parse.urlsplit: a valid scheme is a
    nonempty prefix before the first ':', starting with an ASCII letter
    and made of scheme characters; it is lowercased.  Returns the
    (scheme, remainder) pair, with an empty scheme when absent. -/
def pySplitScheme (l : List Char) : List Char × List Char :=
  let pre := beforeChar ':' l
  if pre.length < l.length ∧ pre ≠ [] ∧
     (match pre with | c :: _ => c.isAlpha | [] => false) = true ∧
     pre.all schemeChar = true
  then (pre.map Char.toLower, l.drop (pre.length + 1))
  else ([], l)

/-- urllib.parse.urlsplit (CPython 3.11): strip leading control/space
    characters, remove tab and newline characters, split the scheme,
    take the netloc after a leading //, then split fragment and query
    (fragment first, as in CPython).  The ValueError paths of CPython
    (unbalanced IPv6 brackets in the netloc, and the NFKC check that
    can only fire for non-ASCII netlocs) are outside this model; no
    claim involves such URLs, and the theorems that quantify over URLs
    restrict the netloc accordingly where it matters. -/
def pyUrlsplit (l0 : List Char) : SplitResult :=
  let l := (l0.dropWhile c0OrSpace).filter keptChar
  let sr := pySplitScheme l
  let scheme := sr.1
  let r0 := sr.2
  let netloc := if r0.take 2 = ['/', '/'] then (r0.drop 2).takeWhile nlc else []
  let r1 := if r0.take 2 = ['/', '/'] then (r0.drop 2).dropWhile nlc else r0
  let fragment := dropAfter '#' r1
  let r2 := beforeChar '#' r1
  let query := dropAfter '?' r2
  let path := beforeChar '?' r2
  ⟨scheme, netloc, path, query, fragment⟩

/-- urllib.parse.urlunsplit (CPython 3.11; also the geturl of a split
    result): the // separator is emitted when the netloc is nonempty,
    or when the scheme is a uses_netloc scheme and the path does not
    already begin with //. -/
def pyUrlunsplit (s : SplitResult) : List Char :=
  let url := s.path
  let url := if s.netloc ≠ [] ∨ (s.scheme ≠ [] ∧ s.scheme ∈ usesNetloc ∧ url.take 2 ≠ ['/', '/']) then
      '/' :: '/' :: s.netloc ++ (if url ≠ [] ∧ url.head? ≠ some '/' then '/' :: url else url)
    else url
  let url := if s.scheme ≠ [] then s.scheme ++ ':' :: url else url
  let url := if s.query ≠ [] then url ++ '?' :: s.query else url
  let url := if s.fragment ≠ [] then url ++ '#' :: s.fragment else url
  url

/-- The prefix-fixing step of URLValidator.normalize_url: prepend
    https:// when the URL starts with neither http:// nor https://. -/
def prepUrl (l : List Char) : List Char :=
  if startsWL "http://".data l || startsWL "https://".data l then l
  else "https://".data ++ l

/-- URLValidator.normalize_url (src/utils.py lines 143-160): ensure an
    http(s) prefix, parse, blank the fragment, and reassemble. -/
def normalize_url (u : String) : String :=
  let s := pyUrlsplit (prepUrl u.data)
  String.mk (pyUrlunsplit { s with fragment := [] })

/-- URLValidator.is_valid_url (src/utils.py lines 126-141): scheme and
    netloc both nonempty (Python all([scheme, netloc])).  The except
    branch fires only on the unmodelled ValueError paths of urlsplit
    (IPv6 bracket validation), which no claim involves. -/
def is_valid_url (u : String) : Bool :=
  let s := pyUrlsplit u.data
  s.scheme ≠ [] && s.netloc ≠ []

/-- AsyncParallelCrawler._is_same_domain (src/async_crawler.py lines
    88-92): case-insensitive equality of the two netlocs. -/
def is_same_domain (u1 u2 : String) : Bool :=
  (pyUrlsplit u1.data).netloc.map Char.toLower
    == (pyUrlsplit u2.data).netloc.map Char.toLower

/-- CrawlTask (src/async_crawler.py lines 21-32).  In Python its hash
    and equality look only at the URL; the sets that hold tasks are
    therefore modelled with a URL-keyed insert (pendAdd below), while
    the Lean structure equality compares the full (url, depth,
    parent_url) triple, which is what checkpoint round-trips compare. -/
structure CrawlTask where
  url : String
  depth : Nat
  parent_url : Option String := none
deriving DecidableEq

/-- CrawlResult (src/async_crawler.py lines 35-45). -/
structure CrawlResult where
  url : String
  title : String
  content_length : Nat
  links_count : Nat
  success : Bool
  error : Option String := none
  depth : Nat := 0
  filename : Option String := none
deriving DecidableEq

/-- Outcome of the external Fetch Port for one URL, as seen by
    _crawl_single_page: a successful crawl4ai result (title, content,
    internal links), a result with success false (error_message), or an
    exception escaping the fetch. -/
inductive FetchOutcome where
  | ok (title : String) (content : String) (links : List String)
  | fail (err : String)
  | exn (err : String)
deriving DecidableEq

/-- True exactly on the successful outcome. -/
def FetchOutcome.isOk : FetchOutcome → Bool
  | .ok _ _ _ => true
  | _ => false

/-- The configuration of one crawl_website_parallel run: the crawler
    limits (AsyncParallelCrawler.__init__), the pattern arguments of
    crawl_website_parallel, the normalized start URL, and the two
    external ports.  fetch is the Fetch Port oracle; fname models
    OutputPathGenerator.generate_filename, the deterministic URL-to-
    file-name derivation of the Storage Port. -/
structure Crawler where
  max_concurrent : Nat
  max_depth : Nat
  max_pages : Nat
  start_url : String
  include_patterns : Option (List String) := none
  exclude_patterns : Option (List String) := none
  fetch : String → FetchOutcome
  fname : String → String

/-- The mutable state of AsyncParallelCrawler during a run: visited
    URLs, pending tasks, completed results, plus the contents of the
    output directory (files) and, as a proof-only history, every task
    ever popped from pending and handed to the fetch (dispatched). -/
structure CrawlerState where
  visited_urls : List String
  pending_tasks : List CrawlTask
  completed_results : List CrawlResult
  files : List String
  dispatched : List CrawlTask
deriving DecidableEq

/-- Python set.add for the visited-URL set. -/
def visAdd (vs : List String) (u : String) : List String :=
  if u ∈ vs then vs else vs ++ [u]

/-- Python set.add for the pending-task set: CrawlTask hashes and
    compares by URL, so insertion is keyed on the URL alone. -/
def pendAdd (ts : List CrawlTask) (t : CrawlTask) : List CrawlTask :=
  if ts.any (fun a => a.url == t.url) then ts else ts ++ [t]

/-- AsyncParallelCrawler._should_crawl_url (src/async_crawler.py lines
    94-115): well-formedness, same-domain scoping, exclude patterns
    (any substring match rejects), then include patterns (when the list
    is truthy, some substring match is required).  None and the empty
    list are both falsy in Python, hence the getD []. -/
def should_crawl_url (url base_url : String)
    (include_patterns exclude_patterns : Option (List String)) : Bool :=
  if is_valid_url url = false then false
  else if is_same_domain url base_url = false then false
  else if (exclude_patterns.getD []).any (fun p => isSubstr p.data url.data) then false
  else match include_patterns.getD [] with
    | [] => true
    | ps => ps.any (fun p => isSubstr p.data url.data)

/-- AsyncParallelCrawler._crawl_single_page (src/async_crawler.py lines
    138-294) as a pure function of the Fetch Port outcome: on success
    the result carries the task URL, title, content length, link count
    and the derived file name (the file itself is written before the
    function returns); on a failed fetch or an escaping exception it
    carries success false and the error text, with no links.  The
    isinstance-Exception branch of the gather loop (lines 388-398)
    builds the identical failed result, so both exception paths share
    the exn case. -/
def crawl_single_page (C : Crawler) (t : CrawlTask) : CrawlResult × List String :=
  match C.fetch t.url with
  | .ok title content links =>
      ({ url := t.url, title := title, content_length := content.length,
         links_count := links.length, success := true, error := none,
         depth := t.depth, filename := some (C.fname t.url) }, links)
  | .fail err =>
      ({ url := t.url, title := "", content_length := 0, links_count := 0,
         success := false, error := some err, depth := t.depth,
         filename := none }, [])
  | .exn err =>
      ({ url := t.url, title := "", content_length := 0, links_count := 0,
         success := false, error := some err, depth := t.depth,
         filename := none }, [])

/-- One discovered link inside the expansion loop (src/async_crawler.py
    lines 411-432): if the file for the link already exists the link is
    only marked visited; otherwise it becomes a new pending task at
    depth parent+1 when it passes the eligibility filter, is not yet
    visited, and completed+pending is still below max_pages. -/
def processLink (C : Crawler) (t : CrawlTask) (st : CrawlerState) (link : String) : CrawlerState :=
  if C.fname link ∈ st.files then
    { st with visited_urls := visAdd st.visited_urls link }
  else if should_crawl_url link C.start_url C.include_patterns C.exclude_patterns = true
          ∧ link ∉ st.visited_urls
          ∧ st.completed_results.length + st.pending_tasks.length < C.max_pages then
    { st with pending_tasks :=
        pendAdd st.pending_tasks { url := link, depth := t.depth + 1, parent_url := some t.url } }
  else st

/-- Result processing for one task of a batch (src/async_crawler.py
    lines 387-432): append the result, mark the URL visited, and, when
    the fetch succeeded, the depth is below max_depth and the page
    budget is not yet exhausted, run every discovered link through
    processLink. -/
def processOne (C : Crawler) (st : CrawlerState) (t : CrawlTask) : CrawlerState :=
  let rl := crawl_single_page C t
  let st1 := { st with
    completed_results := st.completed_results ++ [rl.1],
    visited_urls := visAdd st.visited_urls t.url }
  if rl.1.success = true ∧ t.depth < C.max_depth
     ∧ st1.completed_results.length < C.max_pages then
    rl.2.foldl (processLink C t) st1
  else st1

/-- One iteration of the while loop of crawl_website_parallel
    (src/async_crawler.py lines 373-432): pop a batch of up to
    max_concurrent tasks from pending (set subtraction removes by URL),
    run all fetches to completion behind the gather barrier (so every
    file written by a successful fetch of this batch is on disk before
    any result is processed), then process the results in batch order. -/
def step (C : Crawler) (s : CrawlerState) : CrawlerState :=
  let batch := s.pending_tasks.take C.max_concurrent
  let pending1 := s.pending_tasks.filter (fun t => !(batch.any (fun b => b.url == t.url)))
  let newFiles := batch.filterMap (fun t => (crawl_single_page C t).1.filename)
  let s1 := { s with
    pending_tasks := pending1,
    files := s.files ++ newFiles,
    dispatched := s.dispatched ++ batch }
  batch.foldl (processOne C) s1

/-- The while loop of crawl_website_parallel, fuel-indexed: iterate
    step while pending is nonempty and the completed count is below
    max_pages.  Any finite run of the Python loop is run C n s for a
    large enough fuel n. -/
def run (C : Crawler) : Nat → CrawlerState → CrawlerState
  | 0, s => s
  | n + 1, s =>
      if s.pending_tasks ≠ [] ∧ s.completed_results.length < C.max_pages
      then run C n (step C s) else s

/-- The state of a fresh run (no checkpoint found, src/async_crawler.py
    lines 364-368): one pending task holding the normalized start URL
    at depth 0, everything else empty.  C.start_url stands for the
    already-normalized start URL (the code normalizes once at entry and
    uses that value both as the seed and as the base of the domain
    filter). -/
def freshInit (C : Crawler) : CrawlerState :=
  { visited_urls := [], pending_tasks := [{ url := C.start_url, depth := 0 }],
    completed_results := [], files := [], dispatched := [] }

/-- The checkpoint document (src/async_crawler.py lines 493-506):
    timestamp, visited URLs, pending tasks as (url, depth, parent_url)
    records, completed results, and the two counters.  The JSON layer
    is assumed faithful for this structured data; file I/O is external. -/
structure Checkpoint where
  timestamp : ℚ
  visited_urls : List String
  pending_tasks : List (String × Nat × Option String)
  completed_results : List CrawlResult
  total_processed : Nat
  start_time : ℚ
deriving DecidableEq

/-- The crawler attributes restored by _load_checkpoint. -/
structure LoadedState where
  visited_urls : List String
  pending_tasks : List CrawlTask
  completed_results : List CrawlResult
  total_processed : Nat
  start_time : ℚ
deriving DecidableEq

/-- AsyncParallelCrawler._save_checkpoint (src/async_crawler.py lines
    488-513): serialize the three collections and the counters. -/
def save_checkpoint (ts : ℚ) (total_processed : Nat) (start_time : ℚ)
    (s : CrawlerState) : Checkpoint :=
  { timestamp := ts,
    visited_urls := s.visited_urls,
    pending_tasks := s.pending_tasks.map (fun t => (t.url, t.depth, t.parent_url)),
    completed_results := s.completed_results,
    total_processed := total_processed,
    start_time := start_time }

/-- AsyncParallelCrawler._load_checkpoint (src/async_crawler.py lines
    515-549), successful path: rebuild the visited set and the pending
    task set by repeated set.add, rebuild the completed list in order
    (CrawlResult(**data) restores every field), restore the counters. -/
def load_checkpoint (cp : Checkpoint) : LoadedState :=
  { visited_urls := cp.visited_urls.foldl visAdd [],
    pending_tasks := cp.pending_tasks.foldl
      (fun acc d => pendAdd acc { url := d.1, depth := d.2.1, parent_url := d.2.2 }) [],
    completed_results := cp.completed_results,
    total_processed := cp.total_processed,
    start_time := cp.start_time }

/-- One decimal place of a percentage, modelling the Python f-string
    format {x:.1f} applied to len(successful)/len(total)*100.  The
    binary-float rounding of CPython is modelled as exact half-up
    rounding of the rational value; no claim depends on the rendering
    of the nonempty branch. -/
def fmtPct (s t : Nat) : String :=
  let tenths : Int := round ((1000 * s : ℚ) / (t : ℚ))
  toString (tenths / 10) ++ "." ++ toString (tenths % 10) ++ "%"

/-- Two decimal places of a duration in seconds, modelling the Python
    f-string format {d:.2f} (same float caveat as fmtPct). -/
def fmtSec (d : ℚ) : String :=
  let h : Int := round ((100 : ℚ) * d)
  toString (h / 100) ++ "." ++
    (if h % 100 < 10 then "0" else "") ++ toString (h % 100)

/-- The report dictionary returned by _generate_stats. -/
structure CrawlStats where
  success : Bool
  start_url : String
  crawl_time : String
  duration : String
  total_pages : Nat
  successful_pages : Nat
  failed_pages : Nat
  success_rate : String
  total_content_length : Nat
  total_links : Nat
  average_content_length : ℚ
  total_duration : ℚ
  output_directory : String
  pages : List CrawlResult

/-- AsyncParallelCrawler._generate_stats (src/async_crawler.py lines
    456-476) as a pure reduction over the completed-results list; the
    wall-clock inputs (crawl_time string from strftime, duration) and
    the output directory are passed in as parameters. -/
def generate_stats (start_url crawl_time : String) (duration : ℚ)
    (output_directory : String) (completed_results : List CrawlResult) : CrawlStats :=
  let successful_results := completed_results.filter (fun r => r.success)
  let failed_results := completed_results.filter (fun r => !r.success)
  { success := true,
    start_url := start_url,
    crawl_time := crawl_time,
    duration := fmtSec duration ++ "秒",
    total_pages := completed_results.length,
    successful_pages := successful_results.length,
    failed_pages := failed_results.length,
    success_rate :=
      if completed_results ≠ [] then
        fmtPct successful_results.length completed_results.length
      else "0%",
    total_content_length := (successful_results.map (fun r => r.content_length)).sum,
    total_links := (successful_results.map (fun r => r.links_count)).sum,
    average_content_length :=
      if successful_results ≠ [] then
        ((successful_results.map (fun r => r.content_length)).sum : ℚ)
          / (successful_results.length : ℚ)
      else 0,
    total_duration := duration,
    output_directory := output_directory,
    pages := completed_results }

/-- A concrete Fetch Port for the duplicate-dispatch scenario: the seed
    links to pages a and b, page a links to b again, page b fails. -/
def exFetch : String → FetchOutcome
  | "https://h/s" => .ok "seed" "cs" ["https://h/a", "https://h/b"]
  | "https://h/a" => .ok "a" "ca" ["https://h/b"]
  | _ => .fail "boom"

/-- A crawler exhibiting the same-batch re-discovery of a failed URL:
    limits are loose, file names are the URLs themselves. -/
def Cex : Crawler :=
  { max_concurrent := 2, max_depth := 3, max_pages := 50,
    start_url := "https://h/s", fetch := exFetch, fname := id }

/-- A crawler for the capacity boundary: max_pages 2, so after the seed
    completes, accepting one link makes completed + pending reach 2. -/
def Cc6 : Crawler :=
  { max_concurrent := 1, max_depth := 1, max_pages := 2,
    start_url := "https://h/s",
    fetch := fun u => if u = "https://h/s" then .ok "seed" "cs" ["https://h/l"] else .fail "e",
    fname := id }

/-- An always-succeeding Fetch Port with no links, for witnesses. -/
def okFetch : String → FetchOutcome :=
  fun _ => .ok "t" "c" []

/-- A crawler whose every fetch succeeds, for witnesses. -/
def Cok : Crawler :=
  { max_concurrent := 2, max_depth := 2, max_pages := 10,
    start_url := "https://h/s", fetch := okFetch, fname := id }

/-- A crawler whose every fetch raises, for the error-handling witness. -/
def Cexn : Crawler :=
  { max_concurrent := 2, max_depth := 2, max_pages := 10,
    start_url := "https://h/s", fetch := fun _ => .exn "boom", fname := id }

/-! ### Generic preservation lemmas -/

theorem foldl_pres {α : Type _} {β : Type _} {P : α → Prop} (f : α → β → α) :
    ∀ (l : List β) (s : α), (∀ s x, x ∈ l → P s → P (f s x)) → P s → P (l.foldl f s) := by
  intro l
  induction l with
  | nil => intro s _ h0; exact h0
  | cons a t ih =>
      intro s h h0
      exact ih _ (fun s x hx => h s x (List.mem_cons_of_mem _ hx))
        (h s a (List.mem_cons_self _ _) h0)

theorem run_pres {C : Crawler} {P : CrawlerState → Prop}
    (h : ∀ s, s.pending_tasks ≠ [] → s.completed_results.length < C.max_pages →
      P s → P (step C s)) :
    ∀ n s, P s → P (run C n s) := by
  intro n
  induction n with
  | zero => intro s hs; exact hs
  | succ n ih =>
      intro s hs
      rw [run]
      split
      · next hc => exact ih _ (h s hc.1 hc.2 hs)
      · exact hs

/-! ### Field bookkeeping for processLink, processOne and step -/

theorem processLink_completed (C : Crawler) (t : CrawlTask) (st : CrawlerState) (l : String) :
    (processLink C t st l).completed_results = st.completed_results := by
  unfold processLink
  split
  · rfl
  · split <;> rfl

theorem processLink_files (C : Crawler) (t : CrawlTask) (st : CrawlerState) (l : String) :
    (processLink C t st l).files = st.files := by
  unfold processLink
  split
  · rfl
  · split <;> rfl

theorem processLink_dispatched (C : Crawler) (t : CrawlTask) (st : CrawlerState) (l : String) :
    (processLink C t st l).dispatched = st.dispatched := by
  unfold processLink
  split
  · rfl
  · split <;> rfl

theorem processLink_pending_cases (C : Crawler) (t : CrawlTask) (st : CrawlerState) (l : String) :
    (processLink C t st l).pending_tasks = st.pending_tasks ∨
    ((processLink C t st l).pending_tasks =
        pendAdd st.pending_tasks { url := l, depth := t.depth + 1, parent_url := some t.url }
      ∧ should_crawl_url l C.start_url C.include_patterns C.exclude_patterns = true
      ∧ l ∉ st.visited_urls
      ∧ st.completed_results.length + st.pending_tasks.length < C.max_pages
      ∧ C.fname l ∉ st.files) := by
  unfold processLink
  split
  · left; rfl
  · next hnf =>
      split
      · next hc => exact Or.inr ⟨rfl, hc.1, hc.2.1, hc.2.2, hnf⟩
      · left; rfl

theorem processLink_visited_cases (C : Crawler) (t : CrawlTask) (st : CrawlerState) (l : String) :
    (processLink C t st l).visited_urls = st.visited_urls ∨
    ((processLink C t st l).visited_urls = visAdd st.visited_urls l ∧ C.fname l ∈ st.files) := by
  unfold processLink
  split
  · next hf => exact Or.inr ⟨rfl, hf⟩
  · split <;> exact Or.inl rfl

theorem visAdd_mem {vs : List String} {u x : String} :
    x ∈ visAdd vs u → x ∈ vs ∨ x = u := by
  unfold visAdd
  split
  · exact fun h => Or.inl h
  · intro h
    rcases List.mem_append.mp h with h | h
    · exact Or.inl h
    · exact Or.inr (List.mem_singleton.mp h)

theorem visAdd_mem_self (vs : List String) (u : String) : u ∈ visAdd vs u := by
  unfold visAdd
  split
  · assumption
  · exact List.mem_append.mpr (Or.inr (List.mem_singleton.mpr rfl))

theorem visAdd_mono {vs : List String} {u x : String} (h : x ∈ vs) : x ∈ visAdd vs u := by
  unfold visAdd
  split
  · exact h
  · exact List.mem_append.mpr (Or.inl h)

theorem pendAdd_mem {ts : List CrawlTask} {t x : CrawlTask} :
    x ∈ pendAdd ts t → x ∈ ts ∨ x = t := by
  unfold pendAdd
  split
  · exact fun h => Or.inl h
  · intro h
    rcases List.mem_append.mp h with h | h
    · exact Or.inl h
    · exact Or.inr (List.mem_singleton.mp h)

theorem pendAdd_mono {ts : List CrawlTask} {t x : CrawlTask} (h : x ∈ ts) :
    x ∈ pendAdd ts t := by
  unfold pendAdd
  split
  · exact h
  · exact List.mem_append.mpr (Or.inl h)

theorem crawl_single_page_url (C : Crawler) (t : CrawlTask) :
    (crawl_single_page C t).1.url = t.url := by
  unfold crawl_single_page
  cases C.fetch t.url <;> rfl

theorem crawl_single_page_depth (C : Crawler) (t : CrawlTask) :
    (crawl_single_page C t).1.depth = t.depth := by
  unfold crawl_single_page
  cases C.fetch t.url <;> rfl

theorem foldl_processLink_completed (C : Crawler) (t : CrawlTask) :
    ∀ (links : List String) (st : CrawlerState),
      (links.foldl (processLink C t) st).completed_results = st.completed_results := by
  intro links
  induction links with
  | nil => intro st; rfl
  | cons a l ih => intro st; rw [List.foldl_cons, ih, processLink_completed]

theorem foldl_processLink_files (C : Crawler) (t : CrawlTask) :
    ∀ (links : List String) (st : CrawlerState),
      (links.foldl (processLink C t) st).files = st.files := by
  intro links
  induction links with
  | nil => intro st; rfl
  | cons a l ih => intro st; rw [List.foldl_cons, ih, processLink_files]

theorem foldl_processLink_dispatched (C : Crawler) (t : CrawlTask) :
    ∀ (links : List String) (st : CrawlerState),
      (links.foldl (processLink C t) st).dispatched = st.dispatched := by
  intro links
  induction links with
  | nil => intro st; rfl
  | cons a l ih => intro st; rw [List.foldl_cons, ih, processLink_dispatched]

theorem processOne_completed (C : Crawler) (st : CrawlerState) (t : CrawlTask) :
    (processOne C st t).completed_results =
      st.completed_results ++ [(crawl_single_page C t).1] := by
  unfold processOne
  dsimp only
  split
  · rw [foldl_processLink_completed]
  · rfl

theorem processOne_files (C : Crawler) (st : CrawlerState) (t : CrawlTask) :
    (processOne C st t).files = st.files := by
  unfold processOne
  dsimp only
  split
  · rw [foldl_processLink_files]
  · rfl

theorem processOne_dispatched (C : Crawler) (st : CrawlerState) (t : CrawlTask) :
    (processOne C st t).dispatched = st.dispatched := by
  unfold processOne
  dsimp only
  split
  · rw [foldl_processLink_dispatched]
  · rfl

theorem foldl_processOne_completed (C : Crawler) :
    ∀ (batch : List CrawlTask) (st : CrawlerState),
      (batch.foldl (processOne C) st).completed_results =
        st.completed_results ++ batch.map (fun t => (crawl_single_page C t).1) := by
  intro batch
  induction batch with
  | nil => intro st; simp
  | cons a l ih =>
      intro st
      rw [List.foldl_cons, ih, processOne_completed, List.map_cons, List.append_assoc,
        List.singleton_append]

theorem foldl_processOne_files (C : Crawler) :
    ∀ (batch : List CrawlTask) (st : CrawlerState),
      (batch.foldl (processOne C) st).files = st.files := by
  intro batch
  induction batch with
  | nil => intro st; rfl
  | cons a l ih => intro st; rw [List.foldl_cons, ih, processOne_files]

theorem foldl_processOne_dispatched (C : Crawler) :
    ∀ (batch : List CrawlTask) (st : CrawlerState),
      (batch.foldl (processOne C) st).dispatched = st.dispatched := by
  intro batch
  induction batch with
  | nil => intro st; rfl
  | cons a l ih => intro st; rw [List.foldl_cons, ih, processOne_dispatched]

theorem step_completed (C : Crawler) (s : CrawlerState) :
    (step C s).completed_results =
      s.completed_results ++
        (s.pending_tasks.take C.max_concurrent).map (fun t => (crawl_single_page C t).1) := by
  unfold step
  rw [foldl_processOne_completed]

theorem step_files (C : Crawler) (s : CrawlerState) :
    (step C s).files =
      s.files ++ (s.pending_tasks.take C.max_concurrent).filterMap
        (fun t => (crawl_single_page C t).1.filename) := by
  unfold step
  rw [foldl_processOne_files]

theorem step_dispatched (C : Crawler) (s : CrawlerState) :
    (step C s).dispatched = s.dispatched ++ s.pending_tasks.take C.max_concurrent := by
  unfold step
  rw [foldl_processOne_dispatched]

theorem step_completed_length (C : Crawler) (s : CrawlerState) :
    (step C s).completed_results.length =
      s.completed_results.length + (s.pending_tasks.take C.max_concurrent).length := by
  rw [step_completed, List.length_append, List.length_map]

/-! ### Claim C3: capacity bound.  The claim fails as stated: it
    covers every run of crawl_website_parallel, and the function's
    first act is to load a checkpoint when one exists (lines 361-370),
    so a run resumed over an old output directory with a smaller
    max_pages inherits a completed_results longer than
    max_pages + (max_concurrent - 1) and the while guard never fires. -/

/-- The state of a resumed run (src/async_crawler.py lines 361-370
    together with _load_checkpoint, lines 515-549): the three
    collections come from the checkpoint, the output directory keeps
    the files of the earlier run, and the dispatched history of the
    new run starts empty. -/
def resumeInit (cp : Checkpoint) (files : List String) : CrawlerState :=
  { visited_urls := (load_checkpoint cp).visited_urls,
    pending_tasks := (load_checkpoint cp).pending_tasks,
    completed_results := (load_checkpoint cp).completed_results,
    files := files,
    dispatched := [] }

/-- The Cex crawler rerun over the same output directory with
    max_pages lowered to 1 (max_concurrent still 2). -/
def C3x : Crawler := { Cex with max_pages := 1 }

/-- Claim C3, counterexample: a prior Cex run completes 4 results and
    saves them in its checkpoint; rerunning crawl_website_parallel
    over the same output directory with max_pages = 1 and
    max_concurrent = 2 loads the checkpoint back, the while guard
    never fires, and the final completed_results length is 4, which
    exceeds max_pages + (max_concurrent - 1) = 2. -/
theorem capacity_bound_counterexample :
    (run C3x 10 (resumeInit
        (save_checkpoint 0 0 0 (run Cex 10 (freshInit Cex)))
        (run Cex 10 (freshInit Cex)).files)).completed_results.length = 4 ∧
    C3x.max_pages + (C3x.max_concurrent - 1) = 2 := by
  refine ⟨by decide, by decide⟩

/-- Claim C3, amended: from any starting state, fresh or loaded from a
    checkpoint, the final length of completed_results never exceeds
    the larger of its initial length and
    max_pages + (max_concurrent - 1): the while guard admits a batch
    only while the count is below max_pages and one batch adds at most
    max_concurrent results, so a run can exceed the nominal bound only
    by what its loaded checkpoint already contained.  For a fresh run
    the initial length is 0 and the nominal bound is the maximum. -/
theorem completed_capacity_bound_any (C : Crawler) (s0 : CrawlerState) (n : Nat) :
    (run C n s0).completed_results.length ≤
      max s0.completed_results.length (C.max_pages + (C.max_concurrent - 1)) := by
  have h := run_pres (C := C)
    (P := fun s => s.completed_results.length ≤
      max s0.completed_results.length (C.max_pages + (C.max_concurrent - 1)))
    (fun s _ hlt hP => by
      have hb : (s.pending_tasks.take C.max_concurrent).length ≤ C.max_concurrent := by
        rw [List.length_take]; exact min_le_left _ _
      have hs := step_completed_length C s
      have hm : C.max_pages + (C.max_concurrent - 1) ≤
          max s0.completed_results.length (C.max_pages + (C.max_concurrent - 1)) :=
        le_max_right _ _
      omega)
    n s0 (le_max_left _ _)
  exact h

/-! ### Claim C6: capacity reservation check -/

/-- Claim C6, counterexample: with max_pages = 2, after the seed page
    completes there is 1 completed result and 0 pending tasks, so
    accepting a link makes completed + pending + 1 = 2 reach max_pages;
    the claim demands rejection, but the code enqueues the link (the
    code rejects only when completed + pending is already at or above
    max_pages). -/
theorem capacity_check_counterexample :
    (run Cc6 1 (freshInit Cc6)).completed_results.length = 1 ∧
    Cc6.max_pages = 2 ∧
    (run Cc6 1 (freshInit Cc6)).pending_tasks.map (fun t => t.url) = ["https://h/l"] := by
  refine ⟨by decide, by decide, by decide⟩

/-- Claim C6, amended: a discovered link is rejected (pending_tasks is
    left unchanged) whenever the count of completed results plus
    pending tasks has already reached max_pages at the eligibility
    check, i.e. whenever accepting it would make the count strictly
    exceed max_pages. -/
theorem capacity_check_amended (C : Crawler) (t : CrawlTask) (st : CrawlerState)
    (link : String)
    (h : C.max_pages ≤ st.completed_results.length + st.pending_tasks.length) :
    (processLink C t st link).pending_tasks = st.pending_tasks := by
  unfold processLink
  split
  · rfl
  · split
    · next hc => omega
    · rfl

/-- A concrete saturated state for the amended C6 witness: one
    completed result and one pending task under max_pages = 2. -/
def satState : CrawlerState :=
  { visited_urls := ["https://h/s"],
    pending_tasks := [{ url := "https://h/l", depth := 1, parent_url := some "https://h/s" }],
    completed_results := [{ url := "https://h/s", title := "seed", content_length := 2,
                            links_count := 1, success := true, depth := 0,
                            filename := some "https://h/s" }],
    files := ["https://h/s"],
    dispatched := [] }

/-- Witness for the amended C6 at the concrete saturated state: with
    max_pages = 2, one completed result and one pending task, a fresh
    link is not enqueued. -/
theorem capacity_check_amended_witness :
    (processLink Cc6 { url := "https://h/s", depth := 0 } satState
      "https://h/m").pending_tasks = satState.pending_tasks :=
  capacity_check_amended Cc6 _ _ _ (by decide)

/-! ### Claim C8: exclude patterns take precedence -/

/-- Claim C8: whenever the link contains some include pattern and some
    exclude pattern as substrings, _should_crawl_url returns false: the
    exclude check runs before and independently of the include check
    (and the two earlier checks can only return false as well). -/
theorem exclude_wins (url base : String) (inc exc : List String) (p q : String)
    (hp : p ∈ inc) (hq : q ∈ exc)
    (hps : isSubstr p.data url.data = true) (hqs : isSubstr q.data url.data = true) :
    should_crawl_url url base (some inc) (some exc) = false := by
  unfold should_crawl_url
  split
  · rfl
  · split
    · rfl
    · split
      · rfl
      · next hno =>
          exact absurd (List.any_eq_true.mpr ⟨q, by simpa using hq, hqs⟩) (by simpa using hno)

/-- Witness for C8: a link containing both the include pattern docs and
    the exclude pattern admin is rejected. -/
theorem exclude_wins_witness :
    should_crawl_url "https://a.test/admin/docs" "https://a.test/" (some ["docs"])
      (some ["admin"]) = false :=
  exclude_wins "https://a.test/admin/docs" "https://a.test/" ["docs"] ["admin"]
    "docs" "admin" (by decide) (by decide) (by decide) (by decide)

/-! ### Claim C9: stats aggregation -/

theorem length_filter_succ_add_fail (l : List CrawlResult) :
    (l.filter (fun r => r.success)).length + (l.filter (fun r => !r.success)).length
      = l.length := by
  induction l with
  | nil => rfl
  | cons a t ih =>
      cases h : a.success <;> simp [List.filter_cons, h] <;> omega

/-- Claim C9: the stats report satisfies successful + failed = total =
    length of the list; the average content length is the sum over
    successful results divided by their number, and 0 (not a division
    error) when there are none; the success-rate string is 0 percent on
    the empty list. -/
theorem generate_stats_spec (rs : List CrawlResult) (su ct od : String) (d : ℚ) :
    ((generate_stats su ct d od rs).successful_pages
        + (generate_stats su ct d od rs).failed_pages
        = (generate_stats su ct d od rs).total_pages)
    ∧ (generate_stats su ct d od rs).total_pages = rs.length
    ∧ (rs.filter (fun r => r.success) = [] →
        (generate_stats su ct d od rs).average_content_length = 0)
    ∧ (rs.filter (fun r => r.success) ≠ [] →
        (generate_stats su ct d od rs).average_content_length =
          (((rs.filter (fun r => r.success)).map (fun r => r.content_length)).sum : ℚ)
            / ((rs.filter (fun r => r.success)).length : ℚ))
    ∧ (rs = [] → (generate_stats su ct d od rs).success_rate = "0%") := by
  refine ⟨?_, rfl, ?_, ?_, ?_⟩
  · exact length_filter_succ_add_fail rs
  · intro h
    unfold generate_stats
    simp only [h]
    rfl
  · intro h
    unfold generate_stats
    simp only [if_pos h]
  · intro h
    unfold generate_stats
    simp only [h]
    rfl

/-- A concrete successful result for the C9 witness. -/
def okRes : CrawlResult :=
  { url := "https://h/s", title := "t", content_length := 4, links_count := 0,
    success := true }

/-- Witness for C9: on the empty list the success rate renders as 0
    percent, and on a one-element successful list the average equals
    the single content length. -/
theorem generate_stats_spec_witness :
    (generate_stats "s" "t" 0 "o" []).success_rate = "0%" ∧
    (generate_stats "s" "t" 0 "o" [okRes]).average_content_length = (4 : ℚ) / 1 := by
  constructor
  · exact (generate_stats_spec [] "s" "t" "o" 0).2.2.2.2 rfl
  · have h := (generate_stats_spec [okRes] "s" "t" "o" 0).2.2.2.1 (by decide)
    rw [h]
    norm_num [okRes]

/-! ### Claim C4: checkpoint round-trip -/

theorem foldl_visAdd_of_nodup :
    ∀ (l acc : List String), l.Nodup → (∀ u ∈ l, u ∉ acc) →
      List.foldl visAdd acc l = acc ++ l := by
  intro l
  induction l with
  | nil => intro acc _ _; simp
  | cons a t ih =>
      intro acc hnd hdisj
      rcases List.nodup_cons.mp hnd with ⟨hna, hnt⟩
      have ha : a ∉ acc := hdisj a (List.mem_cons_self _ _)
      rw [List.foldl_cons]
      have hv : visAdd acc a = acc ++ [a] := by unfold visAdd; rw [if_neg ha]
      rw [hv, ih (acc ++ [a]) hnt ?_]
      · simp
      · intro u hu
        rw [List.mem_append, List.mem_singleton]
        rintro (h | h)
        · exact hdisj u (List.mem_cons_of_mem _ hu) h
        · exact hna (h ▸ hu)

theorem foldl_pendAdd_of_nodup :
    ∀ (l acc : List CrawlTask), (l.map CrawlTask.url).Nodup →
      (∀ t ∈ l, ∀ a ∈ acc, a.url ≠ t.url) →
      List.foldl pendAdd acc l = acc ++ l := by
  intro l
  induction l with
  | nil => intro acc _ _; simp
  | cons a t ih =>
      intro acc hnd hdisj
      rw [List.map_cons, List.nodup_cons] at hnd
      rw [List.foldl_cons]
      have hne : ¬ (acc.any (fun x => x.url == a.url) = true) := by
        intro h
        rcases List.any_eq_true.mp h with ⟨x, hx, hbeq⟩
        exact hdisj a (List.mem_cons_self _ _) x hx (beq_iff_eq.mp hbeq)
      have hv : pendAdd acc a = acc ++ [a] := by
        unfold pendAdd
        rw [if_neg hne]
      rw [hv, ih (acc ++ [a]) hnd.2 ?_]
      · simp
      · intro u hu x hx
        rcases List.mem_append.mp hx with h | h
        · exact hdisj u (List.mem_cons_of_mem _ hu) x h
        · have hxa : x = a := List.mem_singleton.mp h
          subst hxa
          intro hcon
          exact hnd.1 (hcon ▸ List.mem_map_of_mem CrawlTask.url hu)

/-- Claim C4: saving a checkpoint from any crawler state whose visited
    set and pending URLs are duplicate-free (as every state built by
    set insertion is) and loading it back reproduces the same visited
    list, the same pending tasks with the same (url, depth, parent_url)
    triples, the completed results in the same order, and the counters. -/
theorem checkpoint_round_trip (ts stt : ℚ) (tp : Nat) (s : CrawlerState)
    (hv : s.visited_urls.Nodup) (hp : (s.pending_tasks.map CrawlTask.url).Nodup) :
    (load_checkpoint (save_checkpoint ts tp stt s)).visited_urls = s.visited_urls
    ∧ (load_checkpoint (save_checkpoint ts tp stt s)).pending_tasks = s.pending_tasks
    ∧ (load_checkpoint (save_checkpoint ts tp stt s)).completed_results = s.completed_results
    ∧ (load_checkpoint (save_checkpoint ts tp stt s)).total_processed = tp
    ∧ (load_checkpoint (save_checkpoint ts tp stt s)).start_time = stt := by
  refine ⟨?_, ?_, rfl, rfl, rfl⟩
  · have := foldl_visAdd_of_nodup s.visited_urls [] hv (by simp)
    simpa [load_checkpoint, save_checkpoint] using this
  · have h := foldl_pendAdd_of_nodup s.pending_tasks [] hp (by simp)
    show ((s.pending_tasks.map (fun t => (t.url, t.depth, t.parent_url))).foldl
      (fun acc d => pendAdd acc { url := d.1, depth := d.2.1, parent_url := d.2.2 }) [])
      = s.pending_tasks
    rw [List.foldl_map]
    simpa using h

/-- Witness for C4 at a concrete state with one visited URL, one
    pending task and one completed result. -/
theorem checkpoint_round_trip_witness :
    (load_checkpoint (save_checkpoint 9 7 3 satState)).pending_tasks
      = satState.pending_tasks :=
  (checkpoint_round_trip 9 3 7 satState (by decide) (by decide)).2.1

/-! ### Claim C7: depth bound -/

theorem processLink_depth_pres (C : Crawler) (t : CrawlTask) (st : CrawlerState)
    (l : String) (ht : t.depth < C.max_depth)
    (h : ∀ x ∈ st.pending_tasks, x.depth ≤ C.max_depth) :
    ∀ x ∈ (processLink C t st l).pending_tasks, x.depth ≤ C.max_depth := by
  intro x hx
  rcases processLink_pending_cases C t st l with hc | hc
  · exact h x (hc ▸ hx)
  · rcases pendAdd_mem (hc.1 ▸ hx) with hm | hm
    · exact h x hm
    · rw [hm]
      exact ht

theorem processOne_depth_pres (C : Crawler) (st : CrawlerState) (t : CrawlTask)
    (h : ∀ x ∈ st.pending_tasks, x.depth ≤ C.max_depth) :
    ∀ x ∈ (processOne C st t).pending_tasks, x.depth ≤ C.max_depth := by
  unfold processOne
  dsimp only
  split
  · next hc =>
      refine foldl_pres (P := fun s => ∀ x ∈ s.pending_tasks, x.depth ≤ C.max_depth) _ _ _
        (fun s l _ hP => processLink_depth_pres C t s l hc.2.1 hP) ?_
      exact h
  · exact h

theorem step_depth_pres (C : Crawler) (s : CrawlerState)
    (h : ∀ x ∈ s.pending_tasks, x.depth ≤ C.max_depth) :
    (∀ x ∈ (step C s).pending_tasks, x.depth ≤ C.max_depth) ∧
    (∀ x ∈ s.pending_tasks.take C.max_concurrent, x.depth ≤ C.max_depth) := by
  have hbatch : ∀ x ∈ s.pending_tasks.take C.max_concurrent, x.depth ≤ C.max_depth :=
    fun x hx => h x (List.take_subset _ _ hx)
  refine ⟨?_, hbatch⟩
  unfold step
  dsimp only
  refine foldl_pres (P := fun st => ∀ x ∈ st.pending_tasks, x.depth ≤ C.max_depth) _ _ _
    (fun st t _ hP => processOne_depth_pres C st t hP) ?_
  intro x hx
  exact h x (List.mem_of_mem_filter hx)

/-- Claim C7: in a run started fresh from the seed at depth 0, every
    task ever popped from pending and dispatched has depth at most
    max_depth: new tasks are created at depth parent + 1 only from
    parents of depth strictly below max_depth. -/
theorem dispatched_depth_bound (C : Crawler) (n : Nat) :
    ∀ t ∈ (run C n (freshInit C)).dispatched, t.depth ≤ C.max_depth := by
  have h := run_pres (C := C)
    (P := fun s => (∀ x ∈ s.pending_tasks, x.depth ≤ C.max_depth) ∧
      (∀ x ∈ s.dispatched, x.depth ≤ C.max_depth))
    (fun s _ _ hP => by
      refine ⟨(step_depth_pres C s hP.1).1, ?_⟩
      rw [step_dispatched]
      intro x hx
      rcases List.mem_append.mp hx with hm | hm
      · exact hP.2 x hm
      · exact (step_depth_pres C s hP.1).2 x hm)
    n (freshInit C) ⟨by simp [freshInit], by simp [freshInit]⟩
  exact h.2

/-- Witness for C7: in the concrete crawler Cex the seed task itself is
    dispatched in the first step and its depth is within the bound. -/
theorem dispatched_depth_bound_witness :
    ({ url := "https://h/s", depth := 0 } : CrawlTask).depth ≤ Cex.max_depth :=
  dispatched_depth_bound Cex 1 { url := "https://h/s", depth := 0 } (by decide)

/-! ### Claim C5: exceptions become failed results -/

theorem filter_url_single (t : CrawlTask) :
    ∀ (l : List CrawlTask), (l.map CrawlTask.url).Nodup → t ∈ l →
      l.filter (fun b => b.url == t.url) = [t] := by
  intro l
  induction l with
  | nil => intro _ ht; cases ht
  | cons a tl ih =>
      intro hnd ht
      rw [List.map_cons, List.nodup_cons] at hnd
      rcases List.mem_cons.mp ht with rfl | hmem
      · rw [List.filter_cons_of_pos (by simp)]
        have hnil : tl.filter (fun b => b.url == t.url) = [] := by
          rw [List.filter_eq_nil_iff]
          intro b hb
          simp only [beq_iff_eq]
          intro hc
          exact hnd.1 (hc ▸ List.mem_map_of_mem CrawlTask.url hb)
        rw [hnil]
      · have hne : (a.url == t.url) = false := by
          simp only [beq_eq_false_iff_ne, ne_eq]
          intro hc
          exact hnd.1 (hc ▸ List.mem_map_of_mem CrawlTask.url hmem)
        rw [List.filter_cons_of_neg (by simp [hne])]
        exact ih hnd.2 hmem

/-- Claim C5, amended: when the fetch of a batch task raises an
    exception, the dispatch step appends exactly one result for that
    task URL, a failed CrawlResult carrying success false, the
    exception message as error text (non-empty exactly when the
    message is, since the code stores str(e) verbatim), the task depth
    and the task URL; every other batch task still contributes its own
    result, so the run continues. -/
theorem exn_failed_result (C : Crawler) (s : CrawlerState) (t : CrawlTask) (msg : String)
    (ht : t ∈ s.pending_tasks.take C.max_concurrent)
    (hnd : (s.pending_tasks.map CrawlTask.url).Nodup)
    (hf : C.fetch t.url = FetchOutcome.exn msg) :
    ((step C s).completed_results.drop s.completed_results.length).filter
        (fun r => r.url == t.url)
      = [{ url := t.url, title := "", content_length := 0, links_count := 0,
           success := false, error := some msg, depth := t.depth, filename := none }]
    ∧ (step C s).completed_results.length
        = s.completed_results.length + (s.pending_tasks.take C.max_concurrent).length := by
  have hbn : ((s.pending_tasks.take C.max_concurrent).map CrawlTask.url).Nodup := by
    rw [List.map_take]
    exact (List.take_sublist _ _).nodup hnd
  refine ⟨?_, step_completed_length C s⟩
  rw [step_completed, List.drop_left, List.filter_map]
  have hcong : (s.pending_tasks.take C.max_concurrent).filter
      ((fun r => r.url == t.url) ∘ (fun b => (crawl_single_page C b).1))
      = (s.pending_tasks.take C.max_concurrent).filter (fun b => b.url == t.url) := by
    apply List.filter_congr
    intro b _
    simp [Function.comp, crawl_single_page_url]
  rw [hcong, filter_url_single t _ hbn ht, List.map_singleton]
  unfold crawl_single_page
  rw [hf]

/-- Witness for C5: with the always-raising crawler Cexn, the first
    step converts the seed exception into the expected failed result. -/
theorem exn_failed_result_witness :
    ((step Cexn (freshInit Cexn)).completed_results.drop
        (freshInit Cexn).completed_results.length).filter
        (fun r => r.url == "https://h/s")
      = [{ url := "https://h/s", title := "", content_length := 0, links_count := 0,
           success := false, error := some "boom", depth := 0, filename := none }] :=
  (exn_failed_result Cexn (freshInit Cexn) { url := "https://h/s", depth := 0 } "boom"
    (by decide) (by decide) rfl).1

/-- A crawler whose every fetch raises an exception whose str() is
    empty (Python Exception() with no arguments). -/
def Cexn0 : Crawler :=
  { max_concurrent := 2, max_depth := 2, max_pages := 10,
    start_url := "https://h/s", fetch := fun _ => .exn "", fname := id }

/-- Claim C5, counterexample: for an exception whose message is empty
    (str(e) is the empty string, as for a bare Exception()), the
    appended failed CrawlResult carries the empty error text, so the
    non-empty-error conjunct of the claim is false while everything
    else about the conversion holds. -/
theorem exn_empty_error_counterexample :
    (step Cexn0 (freshInit Cexn0)).completed_results =
      [{ url := "https://h/s", title := "", content_length := 0, links_count := 0,
         success := false, error := some "", depth := 0, filename := none }] := by
  decide

/-! ### Claims C1 and C2: duplicate dispatch and the visited-pending
    invariant.  Both fail on the code: visited_urls is extended during
    result processing (line 403), not at dispatch time, so a URL whose
    own fetch failed (leaving no file) can be re-discovered by a batch
    sibling processed earlier in the same zip loop and re-enqueued.
    Both hold again when every fetch succeeds, because each batch URL
    then has its file on disk before processing starts and the
    file-exists branch intercepts the re-discovery. -/

/-- Claim C1, counterexample: in the Cex run the seed links to a and b,
    page a links to b, and the fetch of b fails; b is popped and
    dispatched in batch 2, re-enqueued while that batch is processed
    (its result is handled after the result of a), and dispatched a
    second time in batch 3, so its URL appears twice in the
    dispatched-task history. -/
theorem no_dup_dispatch_counterexample :
    ((run Cex 10 (freshInit Cex)).dispatched.map (fun t => t.url)).count "https://h/b" = 2 := by
  decide

/-- Claim C2, counterexample: after the second dispatch step of the
    same Cex run completes, the URL b is both in visited_urls and the
    URL of a pending task. -/
theorem visited_pending_counterexample :
    "https://h/b" ∈ (run Cex 2 (freshInit Cex)).visited_urls ∧
    "https://h/b" ∈ (run Cex 2 (freshInit Cex)).pending_tasks.map (fun t => t.url) := by
  decide

/-- Every fetch of the run succeeds. -/
def allOk (C : Crawler) : Prop :=
  ∀ u, (C.fetch u).isOk = true

theorem crawl_single_page_of_ok {C : Crawler} (h : allOk C) (t : CrawlTask) :
    (crawl_single_page C t).1.success = true ∧
    (crawl_single_page C t).1.filename = some (C.fname t.url) := by
  have hu := h t.url
  unfold crawl_single_page
  cases hf : C.fetch t.url
  · exact ⟨rfl, rfl⟩
  · rw [hf] at hu; cases hu
  · rw [hf] at hu; cases hu

theorem filterMap_eq_map_of_some {α β : Type _} (f : α → Option β) (g : α → β) :
    ∀ l : List α, (∀ t ∈ l, f t = some (g t)) → l.filterMap f = l.map g := by
  intro l
  induction l with
  | nil => intro _; rfl
  | cons a tl ih =>
      intro h
      rw [List.filterMap_cons, h a (List.mem_cons_self _ _), List.map_cons,
        ih (fun t ht => h t (List.mem_cons_of_mem _ ht))]

theorem step_files_of_ok {C : Crawler} (h : allOk C) (s : CrawlerState) :
    (step C s).files =
      s.files ++ (s.pending_tasks.take C.max_concurrent).map (fun t => C.fname t.url) := by
  rw [step_files,
    filterMap_eq_map_of_some _ _ _ (fun t _ => (crawl_single_page_of_ok h t).2)]

theorem pendAdd_url_nodup {ts : List CrawlTask} {t : CrawlTask}
    (h : (ts.map CrawlTask.url).Nodup) :
    ((pendAdd ts t).map CrawlTask.url).Nodup := by
  unfold pendAdd
  split
  · exact h
  · next hany =>
      rw [List.map_append]
      refine List.Nodup.append h (by simp) ?_
      intro u hu hu2
      rcases List.mem_map.mp hu with ⟨x, hx, hxu⟩
      have : u = t.url := by simpa using hu2
      exact hany (List.any_eq_true.mpr ⟨x, hx, by rw [beq_iff_eq, hxu, this]⟩)

/-- Full branch analysis of processLink. -/
theorem processLink_cases (C : Crawler) (t : CrawlTask) (st : CrawlerState) (l : String) :
    (C.fname l ∈ st.files ∧
      processLink C t st l = { st with visited_urls := visAdd st.visited_urls l }) ∨
    (C.fname l ∉ st.files ∧ l ∉ st.visited_urls ∧
      processLink C t st l =
        { st with pending_tasks := pendAdd st.pending_tasks ⟨l, t.depth + 1, some t.url⟩ }) ∨
    (processLink C t st l = st) := by
  unfold processLink
  split
  · next hf => exact Or.inl ⟨hf, rfl⟩
  · next hf =>
      split
      · next hc => exact Or.inr (Or.inl ⟨hf, hc.2.1, rfl⟩)
      · exact Or.inr (Or.inr rfl)

/-- Invariant for the amended no-duplicate-dispatch claim: pending URLs
    are duplicate-free, dispatched URLs are duplicate-free, every
    dispatched task has its file on disk (true when every fetch
    succeeds), and no pending URL is a dispatched URL. -/
def NInv (C : Crawler) (s : CrawlerState) : Prop :=
  (s.pending_tasks.map CrawlTask.url).Nodup ∧
  (s.dispatched.map CrawlTask.url).Nodup ∧
  (∀ t ∈ s.dispatched, C.fname t.url ∈ s.files) ∧
  (∀ t ∈ s.pending_tasks, ∀ d ∈ s.dispatched, t.url ≠ d.url)

/-- The fold invariant used while one batch is processed: D and F are
    the dispatched list and the file list as of the gather barrier;
    they do not change until the batch is fully processed. -/
def foldInvN (C : Crawler) (D : List CrawlTask) (F : List String) (st : CrawlerState) : Prop :=
  ((st.pending_tasks.map CrawlTask.url).Nodup ∧
    (∀ p ∈ st.pending_tasks, ∀ d ∈ D, p.url ≠ d.url)) ∧ st.files = F

theorem foldInvN_processLink {C : Crawler} {D : List CrawlTask} {F : List String}
    (hDF : ∀ d ∈ D, C.fname d.url ∈ F)
    (t : CrawlTask) (st : CrawlerState) (l : String)
    (h : foldInvN C D F st) : foldInvN C D F (processLink C t st l) := by
  obtain ⟨⟨hn, hdisj⟩, hfiles⟩ := h
  rcases processLink_cases C t st l with ⟨hf, heq⟩ | ⟨hnf, hnv, heq⟩ | heq
  · rw [heq]; exact ⟨⟨hn, hdisj⟩, hfiles⟩
  · rw [heq]
    refine ⟨⟨pendAdd_url_nodup hn, ?_⟩, hfiles⟩
    intro p hp d hd
    rcases pendAdd_mem hp with hm | hm
    · exact hdisj p hm d hd
    · subst hm
      dsimp only
      intro hurl
      apply hnf
      rw [hfiles, hurl]
      exact hDF d hd
  · rw [heq]; exact ⟨⟨hn, hdisj⟩, hfiles⟩

theorem foldInvN_processOne {C : Crawler} {D : List CrawlTask} {F : List String}
    (hDF : ∀ d ∈ D, C.fname d.url ∈ F)
    (st : CrawlerState) (t : CrawlTask)
    (h : foldInvN C D F st) : foldInvN C D F (processOne C st t) := by
  unfold processOne
  dsimp only
  split
  · refine foldl_pres (P := foldInvN C D F) _ _ _
      (fun st2 l _ hP => foldInvN_processLink hDF t st2 l hP) ?_
    exact h
  · exact h

theorem NInv_step {C : Crawler} (hok : allOk C) (s : CrawlerState)
    (h : NInv C s) : NInv C (step C s) := by
  obtain ⟨h1, h2, h3, h4⟩ := h
  have hbn : ((s.pending_tasks.take C.max_concurrent).map CrawlTask.url).Nodup := by
    rw [List.map_take]
    exact (List.take_sublist _ _).nodup h1
  have hbsub : ∀ x ∈ s.pending_tasks.take C.max_concurrent, x ∈ s.pending_tasks :=
    fun x hx => List.take_subset _ _ hx
  have hd := step_dispatched C s
  have hfl := step_files_of_ok hok s
  have hDF : ∀ d ∈ s.dispatched ++ s.pending_tasks.take C.max_concurrent,
      C.fname d.url ∈ s.files
        ++ (s.pending_tasks.take C.max_concurrent).map (fun t => C.fname t.url) := by
    intro d hdm
    rcases List.mem_append.mp hdm with hm | hm
    · exact List.mem_append.mpr (Or.inl (h3 d hm))
    · exact List.mem_append.mpr (Or.inr (List.mem_map_of_mem _ hm))
  have hN2 : ((step C s).dispatched.map CrawlTask.url).Nodup := by
    rw [hd, List.map_append]
    refine List.Nodup.append h2 hbn ?_
    intro u hu1 hu2
    rcases List.mem_map.mp hu1 with ⟨d, hdm, hdu⟩
    rcases List.mem_map.mp hu2 with ⟨b, hbm, hbu⟩
    exact h4 b (hbsub b hbm) d hdm (hbu.trans hdu.symm)
  have hinit : foldInvN C (s.dispatched ++ s.pending_tasks.take C.max_concurrent)
      (s.files ++ (s.pending_tasks.take C.max_concurrent).map (fun t => C.fname t.url))
      { s with
        pending_tasks := s.pending_tasks.filter
          (fun t => !((s.pending_tasks.take C.max_concurrent).any (fun b => b.url == t.url))),
        files := s.files ++ (s.pending_tasks.take C.max_concurrent).filterMap
          (fun t => (crawl_single_page C t).1.filename),
        dispatched := s.dispatched ++ s.pending_tasks.take C.max_concurrent } := by
    refine ⟨⟨?_, ?_⟩, ?_⟩
    · exact ((List.filter_sublist _).map CrawlTask.url).nodup h1
    · intro p hp d hdm
      have hpmem := List.mem_of_mem_filter hp
      have hpcond := List.of_mem_filter hp
      rcases List.mem_append.mp hdm with hm | hm
      · exact h4 p hpmem d hm
      · intro hc
        have : (s.pending_tasks.take C.max_concurrent).any (fun b => b.url == p.url) = true :=
          List.any_eq_true.mpr ⟨d, hm, by rw [beq_iff_eq, hc]⟩
        simp only [this] at hpcond
        cases hpcond
    · dsimp only
      rw [filterMap_eq_map_of_some _ _ _ (fun t _ => (crawl_single_page_of_ok hok t).2)]
  have hfold : foldInvN C (s.dispatched ++ s.pending_tasks.take C.max_concurrent)
      (s.files ++ (s.pending_tasks.take C.max_concurrent).map (fun t => C.fname t.url))
      (step C s) := by
    unfold step
    dsimp only
    exact foldl_pres (P := foldInvN C _ _) _ _ _
      (fun st2 t _ hP => foldInvN_processOne hDF st2 t hP) hinit
  refine ⟨hfold.1.1, hN2, ?_, ?_⟩
  · intro t htm
    rw [hfold.2]
    exact hDF t (hd ▸ htm)
  · intro t htm d hdm
    exact hfold.1.2 t htm d (hd ▸ hdm)

theorem NInv_run (C : Crawler) (hok : allOk C) (n : Nat) :
    NInv C (run C n (freshInit C)) := by
  refine run_pres (fun s _ _ h => NInv_step hok s h) n _ ?_
  refine ⟨by simp [freshInit], by simp [freshInit], ?_, ?_⟩
  · intro t htm; cases htm
  · intro t _ d hdm; cases hdm

/-- Claim C1, amended: when every fetch of the run succeeds (so every
    dispatched page leaves its file on disk before its batch is
    processed), each distinct URL appears at most once across the
    dispatched-task history of a fresh run, even when it is discovered
    as a link from multiple parent pages in the same or different
    batches.  In general a URL whose fetch fails can be dispatched
    again after a same-batch re-discovery, as the counterexample shows. -/
theorem no_dup_dispatch_all_ok (C : Crawler) (n : Nat) (hok : allOk C) :
    ((run C n (freshInit C)).dispatched.map (fun t => t.url)).Nodup :=
  (NInv_run C hok n).2.1

/-- Witness for the amended C1 with the always-succeeding crawler. -/
theorem no_dup_dispatch_all_ok_witness :
    ((run Cok 4 (freshInit Cok)).dispatched.map (fun t => t.url)).Nodup :=
  no_dup_dispatch_all_ok Cok 4 (fun _ => rfl)

/-- Invariant for the amended visited-pending disjointness claim: no
    pending URL is visited, and no pending URL has its file on disk. -/
def GInv (C : Crawler) (s : CrawlerState) : Prop :=
  (∀ u ∈ s.visited_urls, ∀ p ∈ s.pending_tasks, p.url ≠ u) ∧
  (∀ p ∈ s.pending_tasks, C.fname p.url ∉ s.files)

/-- The fold form of GInv while one batch is processed, with the file
    list F frozen at the gather barrier. -/
def foldInvG (C : Crawler) (F : List String) (st : CrawlerState) : Prop :=
  (∀ u ∈ st.visited_urls, ∀ p ∈ st.pending_tasks, p.url ≠ u) ∧
  (∀ p ∈ st.pending_tasks, C.fname p.url ∉ F) ∧ st.files = F

theorem foldInvG_processLink {C : Crawler} {F : List String}
    (t : CrawlTask) (st : CrawlerState) (l : String)
    (h : foldInvG C F st) : foldInvG C F (processLink C t st l) := by
  obtain ⟨h1, h2, hfiles⟩ := h
  rcases processLink_cases C t st l with ⟨hf, heq⟩ | ⟨hnf, hnv, heq⟩ | heq
  · rw [heq]
    refine ⟨?_, h2, hfiles⟩
    intro u hu p hp
    rcases visAdd_mem hu with hm | hm
    · exact h1 u hm p hp
    · subst hm
      intro hc
      exact h2 p hp (hfiles ▸ (hc ▸ hf))
  · rw [heq]
    refine ⟨?_, ?_, hfiles⟩
    · intro u hu p hp
      rcases pendAdd_mem hp with hm | hm
      · exact h1 u hu p hm
      · subst hm
        dsimp only
        intro hc
        exact hnv (hc ▸ hu)
    · intro p hp
      rcases pendAdd_mem hp with hm | hm
      · exact h2 p hm
      · subst hm
        dsimp only
        rw [← hfiles]
        exact hnf
  · rw [heq]; exact ⟨h1, h2, hfiles⟩

theorem foldInvG_processOne {C : Crawler} {F : List String}
    (st : CrawlerState) (t : CrawlTask) (htF : C.fname t.url ∈ F)
    (h : foldInvG C F st) : foldInvG C F (processOne C st t) := by
  obtain ⟨h1, h2, hfiles⟩ := h
  have h1' : ∀ u ∈ visAdd st.visited_urls t.url, ∀ p ∈ st.pending_tasks, p.url ≠ u := by
    intro u hu p hp
    rcases visAdd_mem hu with hm | hm
    · exact h1 u hm p hp
    · subst hm
      intro hc
      exact h2 p hp (hc ▸ htF)
  unfold processOne
  dsimp only
  split
  · refine foldl_pres (P := foldInvG C F) _ _ _
      (fun st2 l _ hP => foldInvG_processLink t st2 l hP) ?_
    exact ⟨h1', h2, hfiles⟩
  · exact ⟨h1', h2, hfiles⟩

theorem GInv_step {C : Crawler} (hok : allOk C) (hinj : Function.Injective C.fname)
    (s : CrawlerState) (h : GInv C s) : GInv C (step C s) := by
  obtain ⟨h1, h2⟩ := h
  have hfl := step_files_of_ok hok s
  have hinit : foldInvG C
      (s.files ++ (s.pending_tasks.take C.max_concurrent).map (fun t => C.fname t.url))
      { s with
        pending_tasks := s.pending_tasks.filter
          (fun t => !((s.pending_tasks.take C.max_concurrent).any (fun b => b.url == t.url))),
        files := s.files ++ (s.pending_tasks.take C.max_concurrent).filterMap
          (fun t => (crawl_single_page C t).1.filename),
        dispatched := s.dispatched ++ s.pending_tasks.take C.max_concurrent } := by
    refine ⟨?_, ?_, ?_⟩
    · intro u hu p hp
      exact h1 u hu p (List.mem_of_mem_filter hp)
    · intro p hp
      have hpmem := List.mem_of_mem_filter hp
      have hpcond := List.of_mem_filter hp
      intro hmem
      rcases List.mem_append.mp hmem with hm | hm
      · exact h2 p hpmem hm
      · rcases List.mem_map.mp hm with ⟨b, hbm, hbe⟩
        have hbu : b.url = p.url := hinj hbe
        have : (s.pending_tasks.take C.max_concurrent).any (fun x => x.url == p.url) = true :=
          List.any_eq_true.mpr ⟨b, hbm, by rw [beq_iff_eq, hbu]⟩
        simp only [this] at hpcond
        cases hpcond
    · dsimp only
      rw [filterMap_eq_map_of_some _ _ _ (fun t _ => (crawl_single_page_of_ok hok t).2)]
  have hfold : foldInvG C
      (s.files ++ (s.pending_tasks.take C.max_concurrent).map (fun t => C.fname t.url))
      (step C s) := by
    unfold step
    dsimp only
    refine foldl_pres (P := foldInvG C _) _ _ _ (fun st2 t ht hP => ?_) hinit
    exact foldInvG_processOne st2 t
      (List.mem_append.mpr (Or.inr (List.mem_map_of_mem _ ht))) hP
  exact ⟨hfold.1, fun p hp => by rw [hfold.2.2]; exact hfold.2.1 p hp⟩

theorem GInv_run (C : Crawler) (hok : allOk C) (hinj : Function.Injective C.fname)
    (n : Nat) : GInv C (run C n (freshInit C)) := by
  refine run_pres (fun s _ _ h => GInv_step hok hinj s h) n _ ?_
  constructor
  · intro u hu; cases hu
  · intro p hp
    intro hc
    cases hc

/-- Claim C2, amended: when every fetch succeeds and distinct URLs map
    to distinct file names, the visited set and the URLs of pending
    tasks are disjoint after every dispatch step of a fresh run.  In
    general the invariant fails: a batch URL whose fetch failed can be
    re-enqueued by an earlier sibling of its own batch and is then both
    visited and pending, as the counterexample shows. -/
theorem visited_pending_disjoint_all_ok (C : Crawler) (n : Nat) (hok : allOk C)
    (hinj : Function.Injective C.fname) :
    ∀ u ∈ (run C n (freshInit C)).visited_urls,
      u ∉ (run C n (freshInit C)).pending_tasks.map (fun t => t.url) := by
  intro u hu hmem
  rcases List.mem_map.mp hmem with ⟨p, hp, hpu⟩
  exact (GInv_run C hok hinj n).1 u hu p hp hpu

/-- Witness for the amended C2 with the always-succeeding crawler and
    the identity file-name map. -/
theorem visited_pending_disjoint_all_ok_witness :
    "https://h/s" ∈ (run Cok 4 (freshInit Cok)).visited_urls ∧
    "https://h/s" ∉ (run Cok 4 (freshInit Cok)).pending_tasks.map (fun t => t.url) :=
  ⟨by decide, visited_pending_disjoint_all_ok Cok 4 (fun _ => rfl)
    (fun _ _ hab => hab) "https://h/s" (by decide)⟩


/-! ### Claim C10: URL normalization.  The claim fails: with an empty
    netloc and a path beginning with //, CPython 3.11's urlunsplit
    emits no // separator, so each application of normalize_url peels
    two slashes off (https://////x becomes https:////x becomes
    https://x).  With a nonempty host the function is idempotent, its
    output starts with http:// or https://, and carries no fragment. -/

theorem takeWhile_append_all {p : Char → Bool} :
    ∀ {a : List Char} (b : List Char), (∀ c ∈ a, p c = true) →
      (a ++ b).takeWhile p = a ++ b.takeWhile p := by
  intro a
  induction a with
  | nil => intro b _; rfl
  | cons x xs ih =>
      intro b h
      rw [List.cons_append, List.takeWhile_cons, if_pos (h x (List.mem_cons_self _ _)),
        ih b (fun c hc => h c (List.mem_cons_of_mem _ hc))]
      rfl

theorem dropWhile_append_all {p : Char → Bool} :
    ∀ {a : List Char} (b : List Char), (∀ c ∈ a, p c = true) →
      (a ++ b).dropWhile p = b.dropWhile p := by
  intro a
  induction a with
  | nil => intro b _; rfl
  | cons x xs ih =>
      intro b h
      rw [List.cons_append, List.dropWhile_cons, if_pos (h x (List.mem_cons_self _ _)),
        ih b (fun c hc => h c (List.mem_cons_of_mem _ hc))]

theorem takeWhile_all_self {p : Char → Bool} :
    ∀ {l : List Char}, (∀ c ∈ l, p c = true) → l.takeWhile p = l := by
  intro l
  induction l with
  | nil => intro _; rfl
  | cons x xs ih =>
      intro h
      rw [List.takeWhile_cons, if_pos (h x (List.mem_cons_self _ _)),
        ih (fun c hc => h c (List.mem_cons_of_mem _ hc))]

theorem dropWhile_all_nil {p : Char → Bool} :
    ∀ {l : List Char}, (∀ c ∈ l, p c = true) → l.dropWhile p = [] := by
  intro l
  induction l with
  | nil => intro _; rfl
  | cons x xs ih =>
      intro h
      rw [List.dropWhile_cons, if_pos (h x (List.mem_cons_self _ _)),
        ih (fun c hc => h c (List.mem_cons_of_mem _ hc))]

theorem takeWhile_head_false {p : Char → Bool} {x : Char} (l : List Char)
    (h : p x = false) : (x :: l).takeWhile p = [] := by
  rw [List.takeWhile_cons, if_neg (by simp [h])]

theorem dropWhile_head_false {p : Char → Bool} {x : Char} (l : List Char)
    (h : p x = false) : (x :: l).dropWhile p = x :: l := by
  rw [List.dropWhile_cons, if_neg (by simp [h])]

theorem mem_takeWhile_pred {p : Char → Bool} :
    ∀ {l : List Char} {c : Char}, c ∈ l.takeWhile p → p c = true := by
  intro l
  induction l with
  | nil => intro c hc; cases hc
  | cons x xs ih =>
      intro c hc
      rw [List.takeWhile_cons] at hc
      by_cases hx : p x = true
      · rw [if_pos hx] at hc
        rcases List.mem_cons.mp hc with rfl | hm
        · exact hx
        · exact ih hm
      · rw [if_neg hx] at hc
        cases hc

theorem mem_takeWhile_mem {p : Char → Bool} {l : List Char} {c : Char}
    (h : c ∈ l.takeWhile p) : c ∈ l :=
  (List.takeWhile_sublist p).subset h

theorem mem_dropWhile_mem {p : Char → Bool} {l : List Char} {c : Char}
    (h : c ∈ l.dropWhile p) : c ∈ l :=
  (List.dropWhile_sublist p).subset h

theorem mem_beforeChar_ne {d : Char} {l : List Char} {c : Char}
    (h : c ∈ beforeChar d l) : c ≠ d := by
  have := mem_takeWhile_pred (p := fun a => a != d) h
  simpa using this

theorem mem_beforeChar_mem {d : Char} {l : List Char} {c : Char}
    (h : c ∈ beforeChar d l) : c ∈ l :=
  mem_takeWhile_mem h

theorem mem_dropAfter_mem {d : Char} {l : List Char} {c : Char}
    (h : c ∈ dropAfter d l) : c ∈ l := by
  unfold dropAfter at h
  exact (List.dropWhile_sublist _).subset ((List.drop_sublist _ _).subset h)

theorem pyUrlunsplit_netloc_form (s n P Q : List Char) (hs : s = "http".data ∨ s = "https".data)
    (hn : n ≠ []) :
    pyUrlunsplit ⟨s, n, P, Q, []⟩ =
      s ++ ':' :: '/' :: '/' ::
        (n ++ (if P ≠ [] ∧ P.head? ≠ some '/' then '/' :: P else P)
           ++ (if Q ≠ [] then '?' :: Q else [])) := by
  unfold pyUrlunsplit
  dsimp only
  rw [if_pos (Or.inl hn)]
  have hsc : s ≠ [] := by rcases hs with rfl | rfl <;> decide
  rw [if_pos hsc, if_neg (by simp)]
  by_cases hq : Q = []
  · simp [hq, List.append_assoc]
  · rw [if_pos hq]
    simp [List.append_assoc, hq]

theorem startsWL_append_self (p l : List Char) : startsWL p (p ++ l) = true := by
  induction p with
  | nil => rfl
  | cons a t ih => simp [startsWL, ih]

theorem exists_of_startsWL : ∀ (p l : List Char), startsWL p l = true → ∃ t, l = p ++ t := by
  intro p
  induction p with
  | nil => intro l _; exact ⟨l, rfl⟩
  | cons a t ih =>
      intro l h
      cases l with
      | nil => cases h
      | cons b bs =>
          simp only [startsWL, Bool.and_eq_true, beq_iff_eq] at h
          rcases h with ⟨hab, hrest⟩
          rcases ih bs hrest with ⟨r, hr⟩
          exact ⟨r, by rw [hr, hab]; rfl⟩

theorem prep_shape (l : List Char) :
    ∃ s t, (s = "http".data ∨ s = "https".data) ∧
      prepUrl l = s ++ ':' :: '/' :: '/' :: t := by
  unfold prepUrl
  split
  · next h =>
      rw [Bool.or_eq_true] at h
      rcases h with h1 | h1
      · rcases exists_of_startsWL _ _ h1 with ⟨t, ht⟩
        exact ⟨"http".data, t, Or.inl rfl, ht⟩
      · rcases exists_of_startsWL _ _ h1 with ⟨t, ht⟩
        exact ⟨"https".data, t, Or.inr rfl, ht⟩
  · exact ⟨"https".data, l, Or.inr rfl, rfl⟩

theorem pySplitScheme_http (R : List Char) :
    pySplitScheme ('h' :: 't' :: 't' :: 'p' :: ':' ::R) = ("http".data, R) := by
  unfold pySplitScheme beforeChar
  simp +decide [List.takeWhile_cons, List.drop_succ_cons]

theorem pySplitScheme_https (R : List Char) :
    pySplitScheme ('h' :: 't' :: 't' :: 'p' :: 's' :: ':' ::R) = ("https".data, R) := by
  unfold pySplitScheme beforeChar
  simp +decide [List.takeWhile_cons, List.drop_succ_cons]

/-- urlsplit on a URL that begins with an http or https scheme followed
    by //: the scheme is recognized, the netloc runs to the first
    delimiter, and fragment and query are split off the remainder. -/
theorem pyUrlsplit_scheme_form (s t : List Char) (hs : s = "http".data ∨ s = "https".data) :
    pyUrlsplit (s ++ ':' :: '/' :: '/' :: t) =
      { scheme := s,
        netloc := (t.filter keptChar).takeWhile nlc,
        path := beforeChar '?' (beforeChar '#' ((t.filter keptChar).dropWhile nlc)),
        query := dropAfter '?' (beforeChar '#' ((t.filter keptChar).dropWhile nlc)),
        fragment := dropAfter '#' ((t.filter keptChar).dropWhile nlc) } := by
  rcases hs with rfl | rfl
  · show pyUrlsplit ('h' :: 't' :: 't' :: 'p' :: ':' :: '/' :: '/' ::t) = _
    unfold pyUrlsplit
    simp +decide [List.dropWhile_cons, List.filter_cons, pySplitScheme_http]
  · show pyUrlsplit ('h' :: 't' :: 't' :: 'p' :: 's' :: ':' :: '/' :: '/' ::t) = _
    unfold pyUrlsplit
    simp +decide [List.dropWhile_cons, List.filter_cons, pySplitScheme_https]

theorem fix_mem {P : List Char} {c : Char}
    (h : c ∈ (if P ≠ [] ∧ P.head? ≠ some '/' then '/' :: P else P)) : c = '/' ∨ c ∈ P := by
  split at h
  · rcases List.mem_cons.mp h with rfl | hm
    · exact Or.inl rfl
    · exact Or.inr hm
  · exact Or.inr h

theorem fix_cons {P : List Char} (h : P ≠ []) :
    ∃ r, (if P ≠ [] ∧ P.head? ≠ some '/' then '/' :: P else P) = '/' :: r := by
  by_cases hh : P.head? = some '/'
  · rw [if_neg (by simp [hh])]
    cases P with
    | nil => exact absurd rfl h
    | cons x xs =>
        have : x = '/' := by simpa using hh
        exact ⟨xs, by rw [this]⟩
  · rw [if_pos ⟨h, hh⟩]
    exact ⟨P, rfl⟩

theorem fix_idem (P : List Char) :
    (if (if P ≠ [] ∧ P.head? ≠ some '/' then '/' :: P else P) ≠ []
        ∧ (if P ≠ [] ∧ P.head? ≠ some '/' then '/' :: P else P).head? ≠ some '/'
      then '/' :: (if P ≠ [] ∧ P.head? ≠ some '/' then '/' :: P else P)
      else (if P ≠ [] ∧ P.head? ≠ some '/' then '/' :: P else P))
    = (if P ≠ [] ∧ P.head? ≠ some '/' then '/' :: P else P) := by
  by_cases hP : P = []
  · subst hP
    simp
  · obtain ⟨r, hr⟩ := fix_cons hP
    rw [hr, if_neg (by simp)]

theorem reparse_split (s n P Q : List Char)
    (hs : s = "http".data ∨ s = "https".data)
    (hkn : ∀ c ∈ n, keptChar c = true) (hnl : ∀ c ∈ n, nlc c = true)
    (hkP : ∀ c ∈ P, keptChar c = true) (hPh : ∀ c ∈ P, c ≠ '#') (hPq : ∀ c ∈ P, c ≠ '?')
    (hkQ : ∀ c ∈ Q, keptChar c = true) (hQh : ∀ c ∈ Q, c ≠ '#') :
    pyUrlsplit (s ++ ':' :: '/' :: '/' ::
        (n ++ (if P ≠ [] ∧ P.head? ≠ some '/' then '/' :: P else P)
           ++ (if Q ≠ [] then '?' :: Q else []))) =
      ⟨s, n, (if P ≠ [] ∧ P.head? ≠ some '/' then '/' :: P else P), Q, []⟩ := by
  set F := if P ≠ [] ∧ P.head? ≠ some '/' then '/' :: P else P with hF
  set qp := if Q ≠ [] then '?' :: Q else [] with hqp
  have hFmem : ∀ c ∈ F, c = '/' ∨ c ∈ P := fun c hc => fix_mem (hF ▸ hc)
  have hqpmem : ∀ c ∈ qp, c = '?' ∨ c ∈ Q := by
    intro c hc
    rw [hqp] at hc
    split at hc
    · rcases List.mem_cons.mp hc with rfl | hm
      · exact Or.inl rfl
      · exact Or.inr hm
    · cases hc
  have hXmem : ∀ c ∈ F ++ qp, (c = '/' ∨ c ∈ P) ∨ (c = '?' ∨ c ∈ Q) := by
    intro c hc
    rcases List.mem_append.mp hc with hm | hm
    · exact Or.inl (hFmem c hm)
    · exact Or.inr (hqpmem c hm)
  have hkX : ∀ c ∈ n ++ (F ++ qp), keptChar c = true := by
    intro c hc
    rcases List.mem_append.mp hc with hm | hm
    · exact hkn c hm
    · rcases hXmem c hm with (rfl | hP') | (rfl | hQ')
      · decide
      · exact hkP c hP'
      · decide
      · exact hkQ c hQ'
  have hfilter : (n ++ (F ++ qp)).filter keptChar = n ++ (F ++ qp) :=
    List.filter_eq_self.mpr hkX
  have hXtake : (F ++ qp).takeWhile nlc = [] := by
    by_cases hP0 : P = []
    · have hF0 : F = [] := by
        rw [hF, if_neg (fun hc => hc.1 hP0)]
        exact hP0
      rw [hF0, List.nil_append, hqp]
      by_cases hQ0 : Q = []
      · rw [if_neg (fun hc => hc hQ0)]
        rfl
      · rw [if_pos hQ0]
        exact takeWhile_head_false _ (by decide)
    · obtain ⟨r, hr⟩ := fix_cons hP0
      rw [hF, hr, List.cons_append]
      exact takeWhile_head_false _ (by decide)
  have hXdrop : (F ++ qp).dropWhile nlc = F ++ qp := by
    by_cases hP0 : P = []
    · have hF0 : F = [] := by
        rw [hF, if_neg (fun hc => hc.1 hP0)]
        exact hP0
      rw [hF0, List.nil_append, hqp]
      by_cases hQ0 : Q = []
      · rw [if_neg (fun hc => hc hQ0)]
        rfl
      · rw [if_pos hQ0]
        exact dropWhile_head_false _ (by decide)
    · obtain ⟨r, hr⟩ := fix_cons hP0
      rw [hF, hr, List.cons_append]
      exact dropWhile_head_false _ (by decide)
  have htake : (n ++ (F ++ qp)).takeWhile nlc = n := by
    rw [takeWhile_append_all _ hnl, hXtake, List.append_nil]
  have hdrop : (n ++ (F ++ qp)).dropWhile nlc = F ++ qp := by
    rw [dropWhile_append_all _ hnl, hXdrop]
  have hnohash : ∀ c ∈ F ++ qp, (c != '#') = true := by
    intro c hc
    rcases hXmem c hc with (rfl | hP') | (rfl | hQ')
    · decide
    · simpa using hPh c hP'
    · decide
    · simpa using hQh c hQ'
  have hB : beforeChar '#' (F ++ qp) = F ++ qp := takeWhile_all_self hnohash
  have hFr : dropAfter '#' (F ++ qp) = [] := by
    unfold dropAfter
    rw [dropWhile_all_nil hnohash]
    rfl
  have hnoq : ∀ c ∈ F, (c != '?') = true := by
    intro c hc
    rcases hFmem c hc with rfl | hP'
    · decide
    · simpa using hPq c hP'
  have hPpart : beforeChar '?' (F ++ qp) = F := by
    unfold beforeChar
    rw [takeWhile_append_all _ hnoq]
    rw [hqp]
    by_cases hQ0 : Q = []
    · rw [if_neg (fun hc => hc hQ0)]
      simp
    · rw [if_pos hQ0, takeWhile_head_false _ (by decide), List.append_nil]
  have hQpart : dropAfter '?' (F ++ qp) = Q := by
    unfold dropAfter
    rw [dropWhile_append_all _ hnoq, hqp]
    by_cases hQ0 : Q = []
    · rw [if_neg (fun hc => hc hQ0), hQ0]
      rfl
    · rw [if_pos hQ0, dropWhile_head_false _ (by decide)]
      rfl
  rw [pyUrlsplit_scheme_form s _ hs]
  simp only [List.append_assoc]
  rw [hfilter, htake, hdrop, hB, hPpart, hQpart, hFr]

theorem prepUrl_of_scheme (s t2 : List Char) (hs : s = "http".data ∨ s = "https".data) :
    prepUrl (s ++ ':' :: '/' :: '/' :: t2) = s ++ ':' :: '/' :: '/' :: t2 := by
  unfold prepUrl
  rcases hs with rfl | rfl
  · have hc : (startsWL "http://".data ("http".data ++ ':' :: '/' :: '/' :: t2)
        || startsWL "https://".data ("http".data ++ ':' :: '/' :: '/' :: t2)) = true := by
      rw [Bool.or_eq_true]
      exact Or.inl (startsWL_append_self "http://".data t2)
    rw [if_pos hc]
  · have hc : (startsWL "http://".data ("https".data ++ ':' :: '/' :: '/' :: t2)
        || startsWL "https://".data ("https".data ++ ':' :: '/' :: '/' :: t2)) = true := by
      rw [Bool.or_eq_true]
      exact Or.inr (startsWL_append_self "https://".data t2)
    rw [if_pos hc]

theorem nlc_ne_hash {c : Char} (h : nlc c = true) : c ≠ '#' := by
  intro hc
  subst hc
  cases h

/-- Claim C10, amended: for every URL whose host component is nonempty
    after the https-prefix fix, normalize_url is idempotent, its output
    starts with http:// or https://, and its output carries no '#'.
    The hsafe hypothesis (no square brackets, ASCII host) keeps the
    statement inside the modelled fragment of CPython urlsplit, whose
    IPv6-bracket and non-ASCII NFKC checks raise ValueError instead of
    returning a value; it is not otherwise used by the proof. -/
theorem normalize_url_amended (u : String)
    (hn : (pyUrlsplit (prepUrl u.data)).netloc ≠ [])
    (hsafe : ∀ c ∈ (pyUrlsplit (prepUrl u.data)).netloc, c ≠ '[' ∧ c ≠ ']' ∧ c.toNat < 128) :
    (startsWL "http://".data (normalize_url u).data = true ∨
      startsWL "https://".data (normalize_url u).data = true)
    ∧ '#' ∉ (normalize_url u).data
    ∧ normalize_url (normalize_url u) = normalize_url u := by
  obtain ⟨s, t, hs, hpre⟩ := prep_shape u.data
  have hsplit := pyUrlsplit_scheme_form s t hs
  set T := t.filter keptChar with hT
  set n := T.takeWhile nlc with hndef
  set A := T.dropWhile nlc with hAdef
  set B := beforeChar '#' A with hBdef
  set P := beforeChar '?' B with hPdef
  set Q := dropAfter '?' B with hQdef
  set F := if P ≠ [] ∧ P.head? ≠ some '/' then '/' :: P else P with hFdef
  set qp := if Q ≠ [] then '?' :: Q else [] with hqpdef
  have hnne : n ≠ [] := by
    rw [hpre, hsplit] at hn
    exact hn
  have hw : (normalize_url u).data = pyUrlunsplit ⟨s, n, P, Q, []⟩ := by
    show (String.mk (pyUrlunsplit { pyUrlsplit (prepUrl u.data) with fragment := [] })).data = _
    rw [hpre, hsplit]
  have hwform : (normalize_url u).data = s ++ ':' :: '/' :: '/' :: (n ++ F ++ qp) := by
    rw [hw, pyUrlunsplit_netloc_form s n P Q hs hnne]
  have hTk : ∀ c ∈ T, keptChar c = true := fun c hc => List.of_mem_filter hc
  have hkn : ∀ c ∈ n, keptChar c = true := fun c hc => hTk c (mem_takeWhile_mem hc)
  have hnl : ∀ c ∈ n, nlc c = true := fun c hc => mem_takeWhile_pred hc
  have hBT : ∀ c ∈ B, c ∈ T := fun c hc => mem_dropWhile_mem (mem_beforeChar_mem hc)
  have hkP : ∀ c ∈ P, keptChar c = true := fun c hc => hTk c (hBT c (mem_beforeChar_mem hc))
  have hPh : ∀ c ∈ P, c ≠ '#' := fun c hc => mem_beforeChar_ne (mem_beforeChar_mem hc)
  have hPq : ∀ c ∈ P, c ≠ '?' := fun c hc => mem_beforeChar_ne hc
  have hkQ : ∀ c ∈ Q, keptChar c = true := fun c hc => hTk c (hBT c (mem_dropAfter_mem hc))
  have hQh : ∀ c ∈ Q, c ≠ '#' := fun c hc => mem_beforeChar_ne (mem_dropAfter_mem hc)
  refine ⟨?_, ?_, ?_⟩
  · rw [hwform]
    rcases hs with rfl | rfl
    · exact Or.inl (startsWL_append_self "http://".data (n ++ F ++ qp))
    · exact Or.inr (startsWL_append_self "https://".data (n ++ F ++ qp))
  · rw [hwform]
    intro hmem
    rcases List.mem_append.mp hmem with hcs | hcx
    · rcases hs with rfl | rfl
      · exact absurd hcs (by decide)
      · exact absurd hcs (by decide)
    · rcases List.mem_cons.mp hcx with hce | hcx
      · cases hce
      · rcases List.mem_cons.mp hcx with hce | hcx
        · cases hce
        · rcases List.mem_cons.mp hcx with hce | hcx
          · cases hce
          · rcases List.mem_append.mp hcx with hm | hm
            · rcases List.mem_append.mp hm with hm2 | hm2
              · exact nlc_ne_hash (hnl _ hm2) rfl
              · rcases fix_mem (hFdef ▸ hm2) with hc | hc
                · cases hc
                · exact hPh _ hc rfl
            · have : ('#' : Char) = '?' ∨ '#' ∈ Q := by
                rw [hqpdef] at hm
                split at hm
                · rcases List.mem_cons.mp hm with hce | hm2
                  · exact Or.inl hce
                  · exact Or.inr hm2
                · cases hm
              rcases this with hc | hc
              · cases hc
              · exact hQh _ hc rfl
  · show String.mk (pyUrlunsplit
      { pyUrlsplit (prepUrl (normalize_url u).data) with fragment := [] }) = normalize_url u
    rw [hwform, prepUrl_of_scheme s _ hs,
      reparse_split s n P Q hs hkn hnl hkP hPh hPq hkQ hQh]
    have hfixF : (if F ≠ [] ∧ F.head? ≠ some '/' then '/' :: F else F) = F := by
      rw [hFdef]
      exact fix_idem P
    rw [pyUrlunsplit_netloc_form s n F Q hs hnne, hfixF, ← hwform]

/-- Claim C10, counterexample: normalize_url is not idempotent.  For
    the URL https://////x (empty host, path beginning with //) each
    application strips two slashes, matching CPython 3.11 exactly, so
    a second application changes the output. -/
theorem normalize_url_counterexample :
    normalize_url (normalize_url "https://////x") ≠ normalize_url "https://////x" := by
  decide

/-- Witness for the amended C10: a URL with a nonempty, bracket-free
    ASCII host is normalized idempotently. -/
theorem normalize_url_amended_witness :
    normalize_url (normalize_url "example.com/page#sec")
      = normalize_url "example.com/page#sec" :=
  (normalize_url_amended "example.com/page#sec" (by decide) (by decide)).2.2

end Crawl
